import Mathlib

/-!
Shallow embedding of the numerical-integration program in `src/main.rs`
(midpoint-rule variant).

Modelling conventions:
* `f64` values are embedded as exact rationals `ℚ`; `u64` sample counts as `ℕ`.
  (Rational division by zero is `0`, where the `f64` code would produce
  `inf`/`NaN`; claims that touch such inputs are settled on the `Ok`/`Err`
  distinction, on which the two semantics agree.)
* The `while i + step < upper_bound` loops of the source terminate exactly
  when `step > 0`; the embedding adds `0 < step` to the loop guard so that the
  Lean functions are total, and theorems about loop behaviour carry the
  hypothesis `0 < step` (the source diverges otherwise).
* The source accumulates `local_sum += ...` left-to-right; the embedding's
  head recursion produces the same rational because `+` (and `max`) are
  commutative and associative on `ℚ`.
* The thread nondeterminism of `calculate_integral_async` is modelled by an
  explicit schedule argument `sched : List ℕ`: the order in which the 32
  spawned workers acquire the mutex and add their local sum into the shared
  accumulator. Every real execution corresponds to some permutation of
  `List.range 32`.
-/

/-- Embeds the Rust `IntegralCalcError` struct: an error carrying a reason
string. -/
structure IntegralCalcError where
  reason : String
deriving DecidableEq, Repr

/-- The error value built at the `lower_bound > upper_bound` checks
(`IntegralCalcError::new("нижняя граница больше верхней")`). -/
def invalidBoundsError : IntegralCalcError :=
  ⟨"нижняя граница больше верхней"⟩

/-- The error value built at the `samples > MAX_SAMPLES_COUNT` check
(`IntegralCalcError::new("превышено максимальное число отсчётов")`). -/
def sampleCountExceededError : IntegralCalcError :=
  ⟨"превышено максимальное число отсчётов"⟩

/-- Embeds `const THREADS_COUNT: i32 = 32`. -/
def THREADS_COUNT : ℕ := 32

/-- Embeds `const MAX_SAMPLES_COUNT: u64 = 1_000_000_000`. -/
def MAX_SAMPLES_COUNT : ℕ := 1000000000

/-- Embeds `const ASYNC_THRESHOLD_SAMPLES_COUNT: u64 = 10_000`. -/
def ASYNC_THRESHOLD_SAMPLES_COUNT : ℕ := 10000

/-- Embeds `calculate_accumulated_sum_on_range`: the loop
`while i + step < upper_bound { local_sum += f(i + step/2.0); i += step; }`
with `i` starting at `lower_bound`, returning `local_sum`. The recursion is
on the loop variable (here merged with `lower_bound`); `0 < step` is added to
the guard for termination (the source loop does not terminate otherwise). -/
def calculate_accumulated_sum_on_range (f : ℚ → ℚ) (lower_bound upper_bound step : ℚ) : ℚ :=
  if h : 0 < step ∧ lower_bound + step < upper_bound then
    f (lower_bound + step / 2) +
      calculate_accumulated_sum_on_range f (lower_bound + step) upper_bound step
  else
    0
termination_by (⌈(upper_bound - lower_bound) / step⌉).toNat
decreasing_by
  obtain ⟨h1, h2⟩ := h
  have hx : (1 : ℚ) < (upper_bound - lower_bound) / step :=
    (one_lt_div h1).mpr (by linarith)
  have h4 : (1 : ℤ) < ⌈(upper_bound - lower_bound) / step⌉ :=
    Int.lt_ceil.mpr (by exact_mod_cast hx)
  have h5 : (upper_bound - (lower_bound + step)) / step
      = (upper_bound - lower_bound) / step - 1 := by
    field_simp
    ring
  rw [h5]
  rw [show (upper_bound - lower_bound) / step - 1
      = (upper_bound - lower_bound) / step - ((1 : ℤ) : ℚ) by push_cast; ring]
  rw [Int.ceil_sub_int]
  omega

/-- Embeds the scanning loop of `get_remaining_term`:
`while i + step < upper_bound { local_max = d(i).abs().max(local_max); i += step; }`
starting from `local_max = 0.0`. Same guard convention as
`calculate_accumulated_sum_on_range`. -/
def max_abs_on_range (d : ℚ → ℚ) (lower_bound upper_bound step : ℚ) : ℚ :=
  if h : 0 < step ∧ lower_bound + step < upper_bound then
    max |d lower_bound| (max_abs_on_range d (lower_bound + step) upper_bound step)
  else
    0
termination_by (⌈(upper_bound - lower_bound) / step⌉).toNat
decreasing_by
  obtain ⟨h1, h2⟩ := h
  have hx : (1 : ℚ) < (upper_bound - lower_bound) / step :=
    (one_lt_div h1).mpr (by linarith)
  have h4 : (1 : ℤ) < ⌈(upper_bound - lower_bound) / step⌉ :=
    Int.lt_ceil.mpr (by exact_mod_cast hx)
  have h5 : (upper_bound - (lower_bound + step)) / step
      = (upper_bound - lower_bound) / step - 1 := by
    field_simp
    ring
  rw [h5]
  rw [show (upper_bound - lower_bound) / step - 1
      = (upper_bound - lower_bound) / step - ((1 : ℤ) : ℚ) by push_cast; ring]
  rw [Int.ceil_sub_int]
  omega

/-- Instrumentation of the loop of `calculate_accumulated_sum_on_range`: the
number of iterations it performs, i.e. the number of integrand evaluations.
The recursion mirrors the loop exactly (same guard, same update). -/
def rangeEvalCount (lower_bound upper_bound step : ℚ) : ℕ :=
  if h : 0 < step ∧ lower_bound + step < upper_bound then
    rangeEvalCount (lower_bound + step) upper_bound step + 1
  else
    0
termination_by (⌈(upper_bound - lower_bound) / step⌉).toNat
decreasing_by
  obtain ⟨h1, h2⟩ := h
  have hx : (1 : ℚ) < (upper_bound - lower_bound) / step :=
    (one_lt_div h1).mpr (by linarith)
  have h4 : (1 : ℤ) < ⌈(upper_bound - lower_bound) / step⌉ :=
    Int.lt_ceil.mpr (by exact_mod_cast hx)
  have h5 : (upper_bound - (lower_bound + step)) / step
      = (upper_bound - lower_bound) / step - 1 := by
    field_simp
    ring
  rw [h5]
  rw [show (upper_bound - lower_bound) / step - 1
      = (upper_bound - lower_bound) / step - ((1 : ℤ) : ℚ) by push_cast; ring]
  rw [Int.ceil_sub_int]
  omega

/-- Embeds `get_remaining_term`: scans the interval tracking the maximum
absolute value of `second_derivative`, then returns
`(upper_bound - lower_bound) * step^2 / 24 * local_max`. -/
def get_remaining_term (second_derivative : ℚ → ℚ) (lower_bound upper_bound step : ℚ) : ℚ :=
  (upper_bound - lower_bound) * step ^ 2 / 24 *
    max_abs_on_range second_derivative lower_bound upper_bound step

/-- Embeds `lower_bound + current_sample as f64 * range / threads_count as f64`,
the lower boundary of worker `k`'s sub-interval. -/
def currentLowerBound (lower_bound range : ℚ) (k : ℕ) : ℚ :=
  lower_bound + (k : ℚ) * range / (THREADS_COUNT : ℚ)

/-- Embeds `lower_bound + (current_sample + 1) as f64 * range / threads_count as f64`,
the upper boundary of worker `k`'s sub-interval. -/
def currentUpperBound (lower_bound range : ℚ) (k : ℕ) : ℚ :=
  lower_bound + ((k : ℚ) + 1) * range / (THREADS_COUNT : ℚ)

/-- Embeds `calculate_integral_async`. The 32 spawned workers each compute a
local sum over their sub-interval with step `range / samples` and add it,
atomically under the mutex, into the shared accumulator; `sched` is the order
in which the additions happen (any real execution is some permutation of
`List.range THREADS_COUNT`). After joining, the accumulator is divided by
`samples`. -/
def calculate_integral_async (f : ℚ → ℚ) (lower_bound upper_bound : ℚ)
    (samples : ℕ) (sched : List ℕ) : Except IntegralCalcError ℚ :=
  if lower_bound > upper_bound then
    Except.error invalidBoundsError
  else
    let range := upper_bound - lower_bound
    let accumulated_sum := sched.foldl
      (fun acc k => acc +
        calculate_accumulated_sum_on_range f
          (currentLowerBound lower_bound range k)
          (currentUpperBound lower_bound range k)
          (range / (samples : ℚ)))
      0
    Except.ok (accumulated_sum / (samples : ℚ))

/-- Embeds `calculate_integral`: validates bounds and the sample ceiling,
dispatches to `calculate_integral_async` above the parallelism threshold,
otherwise sums once over the full interval and divides by `samples`. -/
def calculate_integral (f : ℚ → ℚ) (lower_bound upper_bound : ℚ)
    (samples : ℕ) (sched : List ℕ) : Except IntegralCalcError ℚ :=
  if lower_bound > upper_bound then
    Except.error invalidBoundsError
  else if samples > MAX_SAMPLES_COUNT then
    Except.error sampleCountExceededError
  else if samples > ASYNC_THRESHOLD_SAMPLES_COUNT then
    calculate_integral_async f lower_bound upper_bound samples sched
  else
    let step := (upper_bound - lower_bound) / (samples : ℚ)
    let accumulated_sum := calculate_accumulated_sum_on_range f lower_bound upper_bound step
    Except.ok (accumulated_sum / (samples : ℚ))

/-- The number of iterations of the `while i + step < upper_bound` loop in
closed form: the number of naturals `k` with
`lower_bound + k * step + step < upper_bound` (for `0 < step`). -/
def iterCount (lower_bound upper_bound step : ℚ) : ℕ :=
  ⌈(upper_bound - lower_bound - step) / step⌉₊

/-- The maximum of `|d (a + k * step)|` over `k < n`, starting from `0`
(the spec's description of the scan in `get_remaining_term`). -/
def maxAbsSampled (d : ℚ → ℚ) (a step : ℚ) (n : ℕ) : ℚ :=
  ((List.range n).map fun k : ℕ => |d (a + (k : ℚ) * step)|).foldr max 0

/-- Number of integrand evaluations performed by the sequential path of
`calculate_integral` (the single full-interval loop at step
`(upper_bound - lower_bound) / samples`). -/
def seqEvalCount (lower_bound upper_bound : ℚ) (samples : ℕ) : ℕ :=
  rangeEvalCount lower_bound upper_bound ((upper_bound - lower_bound) / (samples : ℚ))

/-- Total number of integrand evaluations performed across the
`THREADS_COUNT` workers of `calculate_integral_async` (each worker runs the
loop over its own sub-interval at step `range / samples`). -/
def asyncEvalTotal (lower_bound upper_bound : ℚ) (samples : ℕ) : ℕ :=
  ∑ k in Finset.range THREADS_COUNT,
    rangeEvalCount
      (currentLowerBound lower_bound (upper_bound - lower_bound) k)
      (currentUpperBound lower_bound (upper_bound - lower_bound) k)
      ((upper_bound - lower_bound) / (samples : ℚ))

/-! ### Helper lemmas: closed forms for the three loops -/

theorem iterCount_eq_zero {lower_bound upper_bound step : ℚ} (h1 : 0 < step)
    (h2 : ¬ lower_bound + step < upper_bound) :
    iterCount lower_bound upper_bound step = 0 := by
  unfold iterCount
  exact Nat.ceil_eq_zero.mpr (div_nonpos_iff.mpr (Or.inr ⟨by linarith, h1.le⟩))

theorem iterCount_succ {lower_bound upper_bound step : ℚ} (h1 : 0 < step)
    (h2 : lower_bound + step < upper_bound) :
    iterCount lower_bound upper_bound step
      = iterCount (lower_bound + step) upper_bound step + 1 := by
  unfold iterCount
  have hx : 0 < (upper_bound - lower_bound - step) / step := div_pos (by linarith) h1
  have e1 : (upper_bound - (lower_bound + step) - step) / step
      = (upper_bound - lower_bound - step) / step - ((1 : ℤ) : ℚ) := by
    push_cast
    field_simp
    ring
  have h4 : (0 : ℤ) < ⌈(upper_bound - lower_bound - step) / step⌉ := Int.ceil_pos.mpr hx
  rw [← Int.ceil_toNat, ← Int.ceil_toNat, e1, Int.ceil_sub_int]
  omega

theorem iterCount_lt_iff {lower_bound upper_bound step : ℚ} (h1 : 0 < step) (k : ℕ) :
    k < iterCount lower_bound upper_bound step
      ↔ lower_bound + (k : ℚ) * step + step < upper_bound := by
  unfold iterCount
  rw [Nat.lt_ceil, lt_div_iff₀ h1]
  constructor <;> intro h <;> linarith

theorem accumulated_sum_eq_sum_aux (f : ℚ → ℚ) {upper_bound step : ℚ} (h1 : 0 < step) :
    ∀ (n : ℕ) (lower_bound : ℚ), iterCount lower_bound upper_bound step = n →
      calculate_accumulated_sum_on_range f lower_bound upper_bound step
        = ∑ k in Finset.range n, f (lower_bound + (k : ℚ) * step + step / 2) := by
  intro n
  induction n with
  | zero =>
    intro lb h0
    rw [calculate_accumulated_sum_on_range, dif_neg]
    · simp
    · rintro ⟨-, hlt⟩
      rw [iterCount_succ h1 hlt] at h0
      omega
  | succ n ih =>
    intro lb hn
    have hlt : lb + step < upper_bound := by
      by_contra hc
      rw [iterCount_eq_zero h1 hc] at hn
      omega
    have hn2 : iterCount (lb + step) upper_bound step = n := by
      rw [iterCount_succ h1 hlt] at hn
      omega
    rw [calculate_accumulated_sum_on_range, dif_pos ⟨h1, hlt⟩, ih (lb + step) hn2,
      Finset.sum_range_succ']
    conv_rhs => rw [add_comm]
    congr 1
    · congr 1
      push_cast
      ring
    · apply Finset.sum_congr rfl
      intro k _
      congr 1
      push_cast
      ring

theorem accumulated_sum_closed_form (f : ℚ → ℚ) (lower_bound upper_bound step : ℚ)
    (h1 : 0 < step) :
    calculate_accumulated_sum_on_range f lower_bound upper_bound step
      = ∑ k in Finset.range (iterCount lower_bound upper_bound step),
          f (lower_bound + (k : ℚ) * step + step / 2) :=
  accumulated_sum_eq_sum_aux f h1 _ lower_bound rfl

theorem rangeEvalCount_eq_aux {upper_bound step : ℚ} (h1 : 0 < step) :
    ∀ (n : ℕ) (lower_bound : ℚ), iterCount lower_bound upper_bound step = n →
      rangeEvalCount lower_bound upper_bound step = n := by
  intro n
  induction n with
  | zero =>
    intro lb h0
    rw [rangeEvalCount, dif_neg]
    rintro ⟨-, hlt⟩
    rw [iterCount_succ h1 hlt] at h0
    omega
  | succ n ih =>
    intro lb hn
    have hlt : lb + step < upper_bound := by
      by_contra hc
      rw [iterCount_eq_zero h1 hc] at hn
      omega
    have hn2 : iterCount (lb + step) upper_bound step = n := by
      rw [iterCount_succ h1 hlt] at hn
      omega
    rw [rangeEvalCount, dif_pos ⟨h1, hlt⟩, ih (lb + step) hn2]

theorem rangeEvalCount_closed_form (lower_bound upper_bound step : ℚ) (h1 : 0 < step) :
    rangeEvalCount lower_bound upper_bound step = iterCount lower_bound upper_bound step :=
  rangeEvalCount_eq_aux h1 _ lower_bound rfl

theorem maxAbsSampled_succ (d : ℚ → ℚ) (a step : ℚ) (n : ℕ) :
    maxAbsSampled d a step (n + 1) = max |d a| (maxAbsSampled d (a + step) step n) := by
  unfold maxAbsSampled
  rw [List.range_succ_eq_map, List.map_cons, List.foldr_cons, List.map_map]
  congr 2
  · norm_num
  apply List.map_congr_left
  intro k _
  simp only [Function.comp_apply]
  congr 1
  push_cast
  ring_nf

theorem max_abs_eq_aux (d : ℚ → ℚ) {upper_bound step : ℚ} (h1 : 0 < step) :
    ∀ (n : ℕ) (lower_bound : ℚ), iterCount lower_bound upper_bound step = n →
      max_abs_on_range d lower_bound upper_bound step
        = maxAbsSampled d lower_bound step n := by
  intro n
  induction n with
  | zero =>
    intro lb h0
    rw [max_abs_on_range, dif_neg]
    · rfl
    · rintro ⟨-, hlt⟩
      rw [iterCount_succ h1 hlt] at h0
      omega
  | succ n ih =>
    intro lb hn
    have hlt : lb + step < upper_bound := by
      by_contra hc
      rw [iterCount_eq_zero h1 hc] at hn
      omega
    have hn2 : iterCount (lb + step) upper_bound step = n := by
      rw [iterCount_succ h1 hlt] at hn
      omega
    rw [max_abs_on_range, dif_pos ⟨h1, hlt⟩, ih (lb + step) hn2, maxAbsSampled_succ]

theorem max_abs_closed_form (d : ℚ → ℚ) (lower_bound upper_bound step : ℚ)
    (h1 : 0 < step) :
    max_abs_on_range d lower_bound upper_bound step
      = maxAbsSampled d lower_bound step (iterCount lower_bound upper_bound step) :=
  max_abs_eq_aux d h1 _ lower_bound rfl

/-! ### Claim theorems -/

/-- C1: `calculate_accumulated_sum_on_range f a b step` returns the sum of
`f (i + step/2)` over the uniform progression `i = a, a + step, a + 2*step, ...`
taken exactly while `i + step < b` (midpoint rule; the last partial sub-step
that would overshoot `b` is dropped, not clamped): `iterCount a b step` counts
exactly the indices `k` with `a + k*step + step < b`, and the returned value
is the sum of `f (a + k*step + step/2)` over those indices. Purity holds by
construction (the embedding is a function of its arguments). Stated under
`0 < step`, the terminating executions of the source loop. -/
theorem C1_midpoint_sum (f : ℚ → ℚ) (a b step : ℚ) (h : 0 < step) :
    (∀ k : ℕ, k < iterCount a b step ↔ a + (k : ℚ) * step + step < b) ∧
    calculate_accumulated_sum_on_range f a b step
      = ∑ k in Finset.range (iterCount a b step), f (a + (k : ℚ) * step + step / 2) :=
  ⟨fun k => iterCount_lt_iff h k, accumulated_sum_closed_form f a b step h⟩

/-- Witness for C1 at `f = id`, `a = 0`, `b = 1`, `step = 1/2`. -/
theorem C1_midpoint_sum_witness :
    0 < (1/2 : ℚ) ∧
    ((∀ k : ℕ, k < iterCount 0 1 (1/2) ↔ (0 : ℚ) + (k : ℚ) * (1/2) + 1/2 < 1) ∧
     calculate_accumulated_sum_on_range id 0 1 (1/2)
       = ∑ k in Finset.range (iterCount 0 1 (1/2)), id ((0 : ℚ) + (k : ℚ) * (1/2) + (1/2) / 2)) :=
  ⟨by norm_num, C1_midpoint_sum id 0 1 (1/2) (by norm_num)⟩

/-- C2: under valid bounds and a sample count within the ceiling,
`calculate_integral` returns exactly the result of `calculate_integral_async`
when `samples` exceeds the parallelism threshold, and otherwise returns
`Ok(calculate_accumulated_sum_on_range f lb ub step / samples)` with
`step = (ub - lb) / samples`. -/
theorem C2_threshold_dispatch (f : ℚ → ℚ) (lower_bound upper_bound : ℚ)
    (samples : ℕ) (sched : List ℕ)
    (h1 : lower_bound ≤ upper_bound) (h2 : samples ≤ MAX_SAMPLES_COUNT) :
    (samples > ASYNC_THRESHOLD_SAMPLES_COUNT →
      calculate_integral f lower_bound upper_bound samples sched
        = calculate_integral_async f lower_bound upper_bound samples sched) ∧
    (samples ≤ ASYNC_THRESHOLD_SAMPLES_COUNT →
      calculate_integral f lower_bound upper_bound samples sched
        = Except.ok (calculate_accumulated_sum_on_range f lower_bound upper_bound
            ((upper_bound - lower_bound) / (samples : ℚ)) / (samples : ℚ))) := by
  constructor
  · intro h3
    simp only [calculate_integral]
    rw [if_neg (not_lt.mpr h1), if_neg (not_lt.mpr h2), if_pos h3]
  · intro h3
    simp only [calculate_integral]
    rw [if_neg (not_lt.mpr h1), if_neg (not_lt.mpr h2), if_neg (not_lt.mpr h3)]

/-- Witness for C2 at `f = id`, bounds `[0, 1]`, `samples = 20000` (above the
threshold), `sched = List.range 32`. -/
theorem C2_threshold_dispatch_witness :
    (0 : ℚ) ≤ 1 ∧ 20000 ≤ MAX_SAMPLES_COUNT ∧
    ((20000 > ASYNC_THRESHOLD_SAMPLES_COUNT →
      calculate_integral id 0 1 20000 (List.range 32)
        = calculate_integral_async id 0 1 20000 (List.range 32)) ∧
    (20000 ≤ ASYNC_THRESHOLD_SAMPLES_COUNT →
      calculate_integral id 0 1 20000 (List.range 32)
        = Except.ok (calculate_accumulated_sum_on_range id 0 1
            ((1 - 0) / ((20000 : ℕ) : ℚ)) / ((20000 : ℕ) : ℚ)))) :=
  ⟨by norm_num, by decide,
    C2_threshold_dispatch id 0 1 20000 (List.range 32) (by norm_num) (by decide)⟩

/-- C4: the index-based sub-interval boundaries of `calculate_integral_async`
tile the interval with no gap or overlap: the upper boundary of worker `k`
is exactly equal to the lower boundary of worker `k + 1`, for every
`k` with `k + 1 < THREADS_COUNT` (in the exact-arithmetic embedding both are
`lower_bound + (k+1) * range / THREADS_COUNT`; in the `f64` source they are
the same expression, hence bit-for-bit equal). -/
theorem C4_partition_boundaries (lower_bound upper_bound : ℚ) (k : ℕ)
    (h1 : lower_bound ≤ upper_bound) (h2 : k + 1 < THREADS_COUNT) :
    currentUpperBound lower_bound (upper_bound - lower_bound) k
      = currentLowerBound lower_bound (upper_bound - lower_bound) (k + 1) := by
  unfold currentUpperBound currentLowerBound
  push_cast
  ring

/-- Witness for C4 at bounds `[0, 1]`, `k = 0`. -/
theorem C4_partition_boundaries_witness :
    (0 : ℚ) ≤ 1 ∧ 0 + 1 < THREADS_COUNT ∧
    currentUpperBound 0 (1 - 0) 0 = currentLowerBound 0 (1 - 0) (0 + 1) :=
  ⟨by norm_num, by decide, C4_partition_boundaries 0 1 0 (by norm_num) (by decide)⟩

/-- C6: whenever `lower_bound > upper_bound`, both `calculate_integral` and
`calculate_integral_async` return the `InvalidBounds` error, for any `samples`
and any schedule. -/
theorem C6_invalid_bounds (f : ℚ → ℚ) (lower_bound upper_bound : ℚ)
    (samples : ℕ) (sched : List ℕ) (h : lower_bound > upper_bound) :
    calculate_integral f lower_bound upper_bound samples sched
      = Except.error invalidBoundsError ∧
    calculate_integral_async f lower_bound upper_bound samples sched
      = Except.error invalidBoundsError := by
  constructor
  · simp only [calculate_integral]
    rw [if_pos h]
  · simp only [calculate_integral_async]
    rw [if_pos h]

/-- Witness for C6 at the spec's scenario 3: bounds `[5, 1]`, `samples = 7`. -/
theorem C6_invalid_bounds_witness :
    (5 : ℚ) > 1 ∧
    (calculate_integral id 5 1 7 (List.range 32) = Except.error invalidBoundsError ∧
     calculate_integral_async id 5 1 7 (List.range 32) = Except.error invalidBoundsError) :=
  ⟨by norm_num, C6_invalid_bounds id 5 1 7 (List.range 32) (by norm_num)⟩

/-- C7: with valid bounds, whenever `samples > MAX_SAMPLES_COUNT` the
dispatcher returns the `SampleCountExceeded` error (so neither computation
path is reached: the result is the error, not a value of either path). -/
theorem C7_sample_ceiling (f : ℚ → ℚ) (lower_bound upper_bound : ℚ)
    (samples : ℕ) (sched : List ℕ)
    (h1 : lower_bound ≤ upper_bound) (h2 : samples > MAX_SAMPLES_COUNT) :
    calculate_integral f lower_bound upper_bound samples sched
      = Except.error sampleCountExceededError := by
  simp only [calculate_integral]
  rw [if_neg (not_lt.mpr h1), if_pos h2]

/-- Witness for C7 at the spec's scenario 4: bounds `[0, 1]`,
`samples = 2_000_000_000`. -/
theorem C7_sample_ceiling_witness :
    (0 : ℚ) ≤ 1 ∧ 2000000000 > MAX_SAMPLES_COUNT ∧
    calculate_integral id 0 1 2000000000 (List.range 32)
      = Except.error sampleCountExceededError :=
  ⟨by norm_num, by decide,
    C7_sample_ceiling id 0 1 2000000000 (List.range 32) (by norm_num) (by decide)⟩

/-- C9: `get_remaining_term d a b step` scans the same truncated progression
as the local summation (`iterCount` counts exactly the indices `k` with
`a + k*step + step < b`), tracks the maximum of `|d (a + k*step)|` starting
from `0`, and returns `(b - a) * step^2 / 24` times that maximum. Stated under
`a ≤ b` and `0 < step` (the terminating executions of the source loop). -/
theorem C9_remaining_term (d : ℚ → ℚ) (a b step : ℚ) (hab : a ≤ b) (h : 0 < step) :
    (∀ k : ℕ, k < iterCount a b step ↔ a + (k : ℚ) * step + step < b) ∧
    get_remaining_term d a b step
      = (b - a) * step ^ 2 / 24 * maxAbsSampled d a step (iterCount a b step) := by
  refine ⟨fun k => iterCount_lt_iff h k, ?_⟩
  unfold get_remaining_term
  rw [max_abs_closed_form d a b step h]

/-- Witness for C9 at `d = id`, `a = 0`, `b = 1`, `step = 1/2`. -/
theorem C9_remaining_term_witness :
    (0 : ℚ) ≤ 1 ∧ 0 < (1/2 : ℚ) ∧
    ((∀ k : ℕ, k < iterCount 0 1 (1/2) ↔ (0 : ℚ) + (k : ℚ) * (1/2) + 1/2 < 1) ∧
     get_remaining_term id 0 1 (1/2)
       = (1 - 0) * (1/2 : ℚ) ^ 2 / 24 * maxAbsSampled id 0 (1/2) (iterCount 0 1 (1/2))) :=
  ⟨by norm_num, by norm_num, C9_remaining_term id 0 1 (1/2) (by norm_num) (by norm_num)⟩

/-- C10: `calculate_integral_async` does not enforce the sample ceiling: with
valid bounds, calling it directly with `samples > MAX_SAMPLES_COUNT` still
returns `Ok` with a numeric result (the ceiling is checked only in
`calculate_integral`). -/
theorem C10_async_no_ceiling (f : ℚ → ℚ) (lower_bound upper_bound : ℚ)
    (samples : ℕ) (sched : List ℕ)
    (h1 : lower_bound ≤ upper_bound) (h2 : samples > MAX_SAMPLES_COUNT) :
    ∃ q : ℚ, calculate_integral_async f lower_bound upper_bound samples sched
      = Except.ok q := by
  refine ⟨(sched.foldl
      (fun acc k => acc +
        calculate_accumulated_sum_on_range f
          (currentLowerBound lower_bound (upper_bound - lower_bound) k)
          (currentUpperBound lower_bound (upper_bound - lower_bound) k)
          ((upper_bound - lower_bound) / (samples : ℚ)))
      0) / (samples : ℚ), ?_⟩
  simp only [calculate_integral_async]
  rw [if_neg (not_lt.mpr h1)]

/-- Witness for C10 at bounds `[0, 1]`, `samples = 2_000_000_000`. -/
theorem C10_async_no_ceiling_witness :
    (0 : ℚ) ≤ 1 ∧ 2000000000 > MAX_SAMPLES_COUNT ∧
    ∃ q : ℚ, calculate_integral_async id 0 1 2000000000 (List.range 32)
      = Except.ok q :=
  ⟨by norm_num, by decide,
    C10_async_no_ceiling id 0 1 2000000000 (List.range 32) (by norm_num) (by decide)⟩

/-! ### C3: the concurrent merge refines the in-order fold -/

theorem foldl_add_eq (g : ℕ → ℚ) :
    ∀ (l : List ℕ) (acc : ℚ), l.foldl (fun a k => a + g k) acc = acc + (l.map g).sum := by
  intro l
  induction l with
  | nil =>
    intro acc
    simp
  | cons x xs ih =>
    intro acc
    rw [List.foldl_cons, ih, List.map_cons, List.sum_cons]
    ring

theorem sum_map_list_range_eq (g : ℕ → ℚ) :
    ∀ n : ℕ, ((List.range n).map g).sum = ∑ k in Finset.range n, g k := by
  intro n
  induction n with
  | zero =>
    simp
  | succ n ih =>
    rw [List.range_succ, List.map_append, List.sum_append, Finset.sum_range_succ, ih]
    simp

/-- C3: for any order `sched` in which the 32 workers may add their local
sums into the shared accumulator (any permutation of `List.range 32`), the
value returned by `calculate_integral_async` equals the sequential fold: the
sum over `k = 0..31` of the local sum of sub-range `k` (bounds
`lower_bound + k*range/32` and `lower_bound + (k+1)*range/32`, step
`range/samples`), divided once by `samples` at the end. -/
theorem C3_async_equals_sequential_fold (f : ℚ → ℚ) (lower_bound upper_bound : ℚ)
    (samples : ℕ) (sched : List ℕ)
    (h1 : lower_bound ≤ upper_bound) (h2 : sched.Perm (List.range THREADS_COUNT)) :
    calculate_integral_async f lower_bound upper_bound samples sched
      = Except.ok ((∑ k in Finset.range THREADS_COUNT,
          calculate_accumulated_sum_on_range f
            (lower_bound + (k : ℚ) * (upper_bound - lower_bound) / (THREADS_COUNT : ℚ))
            (lower_bound + ((k : ℚ) + 1) * (upper_bound - lower_bound) / (THREADS_COUNT : ℚ))
            ((upper_bound - lower_bound) / (samples : ℚ))) / (samples : ℚ)) := by
  have key : sched.foldl
      (fun acc k => acc +
        calculate_accumulated_sum_on_range f
          (currentLowerBound lower_bound (upper_bound - lower_bound) k)
          (currentUpperBound lower_bound (upper_bound - lower_bound) k)
          ((upper_bound - lower_bound) / (samples : ℚ)))
      0
      = ∑ k in Finset.range THREADS_COUNT,
          calculate_accumulated_sum_on_range f
            (currentLowerBound lower_bound (upper_bound - lower_bound) k)
            (currentUpperBound lower_bound (upper_bound - lower_bound) k)
            ((upper_bound - lower_bound) / (samples : ℚ)) := by
    rw [foldl_add_eq, (h2.map _).sum_eq, sum_map_list_range_eq, zero_add]
  simp only [calculate_integral_async]
  rw [if_neg (not_lt.mpr h1), key]
  unfold currentLowerBound currentUpperBound
  rfl

/-- Witness for C3 at `f = id`, bounds `[0, 1]`, `samples = 5`, with the
identity schedule. -/
theorem C3_async_equals_sequential_fold_witness :
    (0 : ℚ) ≤ 1 ∧ (List.range THREADS_COUNT).Perm (List.range THREADS_COUNT) ∧
    calculate_integral_async id 0 1 5 (List.range THREADS_COUNT)
      = Except.ok ((∑ k in Finset.range THREADS_COUNT,
          calculate_accumulated_sum_on_range id
            ((0 : ℚ) + (k : ℚ) * (1 - 0) / (THREADS_COUNT : ℚ))
            ((0 : ℚ) + ((k : ℚ) + 1) * (1 - 0) / (THREADS_COUNT : ℚ))
            ((1 - 0) / ((5 : ℕ) : ℚ))) / ((5 : ℕ) : ℚ)) :=
  ⟨by norm_num, List.Perm.refl _,
    C3_async_equals_sequential_fold id 0 1 5 (List.range THREADS_COUNT)
      (by norm_num) (List.Perm.refl _)⟩

/-! ### C5: evaluation counts of the two paths -/

theorem seqEvalCount_formula (lower_bound upper_bound : ℚ) (samples : ℕ)
    (h1 : lower_bound < upper_bound) (h2 : 1 ≤ samples) :
    seqEvalCount lower_bound upper_bound samples = samples - 1 := by
  have hR : (0 : ℚ) < upper_bound - lower_bound := sub_pos.mpr h1
  have hR0 : upper_bound - lower_bound ≠ 0 := ne_of_gt hR
  have hm : (0 : ℚ) < (samples : ℚ) := by exact_mod_cast Nat.pos_of_ne_zero (by omega)
  have hm0 : (samples : ℚ) ≠ 0 := ne_of_gt hm
  have hs : 0 < (upper_bound - lower_bound) / (samples : ℚ) := div_pos hR hm
  unfold seqEvalCount
  rw [rangeEvalCount_closed_form _ _ _ hs]
  unfold iterCount
  have e : (upper_bound - lower_bound - (upper_bound - lower_bound) / (samples : ℚ))
      / ((upper_bound - lower_bound) / (samples : ℚ)) = (samples : ℚ) - 1 := by
    field_simp
    ring
  have e2 : (samples : ℚ) - 1 = ((samples - 1 : ℕ) : ℚ) := by
    rw [Nat.cast_sub h2, Nat.cast_one]
  rw [e, e2, Nat.ceil_natCast]

theorem asyncEvalTotal_formula (lower_bound upper_bound : ℚ) (samples : ℕ)
    (h1 : lower_bound < upper_bound) (h2 : 1 ≤ samples) :
    asyncEvalTotal lower_bound upper_bound samples
      = THREADS_COUNT * ⌈(samples : ℚ) / 32 - 1⌉₊ := by
  have hR : (0 : ℚ) < upper_bound - lower_bound := sub_pos.mpr h1
  have hR0 : upper_bound - lower_bound ≠ 0 := ne_of_gt hR
  have hm : (0 : ℚ) < (samples : ℚ) := by exact_mod_cast Nat.pos_of_ne_zero (by omega)
  have hm0 : (samples : ℚ) ≠ 0 := ne_of_gt hm
  have hs : 0 < (upper_bound - lower_bound) / (samples : ℚ) := div_pos hR hm
  have hsub : ∀ k : ℕ,
      rangeEvalCount
        (currentLowerBound lower_bound (upper_bound - lower_bound) k)
        (currentUpperBound lower_bound (upper_bound - lower_bound) k)
        ((upper_bound - lower_bound) / (samples : ℚ))
      = ⌈(samples : ℚ) / 32 - 1⌉₊ := by
    intro k
    rw [rangeEvalCount_closed_form _ _ _ hs]
    unfold iterCount currentLowerBound currentUpperBound
    have ht : (THREADS_COUNT : ℚ) = 32 := by norm_num [THREADS_COUNT]
    have e : (lower_bound + ((k : ℚ) + 1) * (upper_bound - lower_bound) / (THREADS_COUNT : ℚ)
        - (lower_bound + (k : ℚ) * (upper_bound - lower_bound) / (THREADS_COUNT : ℚ))
        - (upper_bound - lower_bound) / (samples : ℚ))
        / ((upper_bound - lower_bound) / (samples : ℚ)) = (samples : ℚ) / 32 - 1 := by
      rw [ht]
      field_simp
      ring
    rw [e]
  unfold asyncEvalTotal
  rw [Finset.sum_congr rfl (fun k _ => hsub k), Finset.sum_const, Finset.card_range,
    smul_eq_mul]

/-- C5 counterexample: at bounds `[0, 1]` with `samples = 3200`, the parallel
engine performs 3168 integrand evaluations in total across its 32 workers
while the sequential path performs 3199 — the total is below the sequential
count, not approximately 32 times it. -/
theorem C5_total_evaluations_counterexample :
    asyncEvalTotal 0 1 3200 = 3168 ∧ seqEvalCount 0 1 3200 = 3199 ∧
    asyncEvalTotal 0 1 3200 < seqEvalCount 0 1 3200 := by
  have ha : asyncEvalTotal 0 1 3200 = 3168 := by
    rw [asyncEvalTotal_formula 0 1 3200 (by norm_num) (by norm_num)]
    norm_num [THREADS_COUNT]
  have hb : seqEvalCount 0 1 3200 = 3199 := by
    rw [seqEvalCount_formula 0 1 3200 (by norm_num) (by norm_num)]
  refine ⟨ha, hb, ?_⟩
  rw [ha, hb]
  norm_num

/-- C5 amended: because each worker covers only `range / THREADS_COUNT` of the
interval but keeps the global step `range / samples`, each worker performs
about `samples / THREADS_COUNT` evaluations and the total across all workers
is approximately EQUAL to the sequential count (within `THREADS_COUNT - 1`
evaluations, each path also truncating its last sub-step), not
`THREADS_COUNT` times it. -/
theorem C5_total_evaluations_amended (lower_bound upper_bound : ℚ) (samples : ℕ)
    (h1 : lower_bound < upper_bound) (h2 : 1 ≤ samples) :
    asyncEvalTotal lower_bound upper_bound samples
        ≤ seqEvalCount lower_bound upper_bound samples ∧
    seqEvalCount lower_bound upper_bound samples
        ≤ asyncEvalTotal lower_bound upper_bound samples + (THREADS_COUNT - 1) := by
  rw [seqEvalCount_formula lower_bound upper_bound samples h1 h2,
    asyncEvalTotal_formula lower_bound upper_bound samples h1 h2]
  have hT : THREADS_COUNT = 32 := by norm_num [THREADS_COUNT]
  rw [hT]
  constructor
  · rcases Nat.eq_zero_or_pos ⌈(samples : ℚ) / 32 - 1⌉₊ with hc | hc
    · rw [hc]
      omega
    · have hlt : ((⌈(samples : ℚ) / 32 - 1⌉₊ - 1 : ℕ) : ℚ) < (samples : ℚ) / 32 - 1 :=
        Nat.lt_ceil.mp (by omega)
      rw [Nat.cast_sub hc, Nat.cast_one] at hlt
      have hq : ((⌈(samples : ℚ) / 32 - 1⌉₊ : ℚ)) * 32 < (samples : ℚ) :=
        (lt_div_iff₀ (by norm_num)).mp (by linarith)
      have hn : ⌈(samples : ℚ) / 32 - 1⌉₊ * 32 < samples := by exact_mod_cast hq
      omega
  · have hle : (samples : ℚ) / 32 - 1 ≤ (⌈(samples : ℚ) / 32 - 1⌉₊ : ℚ) :=
      Nat.le_ceil _
    have hq : (samples : ℚ) ≤ ((⌈(samples : ℚ) / 32 - 1⌉₊ : ℚ) + 1) * 32 :=
      (div_le_iff₀ (by norm_num)).mp (by linarith)
    have hn : samples ≤ (⌈(samples : ℚ) / 32 - 1⌉₊ + 1) * 32 := by exact_mod_cast hq
    omega

/-- Witness for the amended C5 at bounds `[0, 1]`, `samples = 3200`. -/
theorem C5_total_evaluations_amended_witness :
    (0 : ℚ) < 1 ∧ 1 ≤ 3200 ∧
    (asyncEvalTotal 0 1 3200 ≤ seqEvalCount 0 1 3200 ∧
     seqEvalCount 0 1 3200 ≤ asyncEvalTotal 0 1 3200 + (THREADS_COUNT - 1)) :=
  ⟨by norm_num, by norm_num,
    C5_total_evaluations_amended 0 1 3200 (by norm_num) (by norm_num)⟩

/-! ### C8: the sample-count positivity invariant is NOT checked -/

theorem accumulated_sum_of_step_nonpos (f : ℚ → ℚ) (lower_bound upper_bound step : ℚ)
    (h : step ≤ 0) :
    calculate_accumulated_sum_on_range f lower_bound upper_bound step = 0 := by
  rw [calculate_accumulated_sum_on_range, dif_neg]
  rintro ⟨h1, -⟩
  linarith

/-- C8 counterexample: with valid bounds `[0, 1]` and `samples = 0`,
`calculate_integral` returns `Ok` (value `0` in the exact-arithmetic model,
where division by zero yields `0`; the `f64` source returns `Ok(NaN)`), not
an error: no positivity check on `samples` exists in the code. -/
theorem C8_zero_samples_counterexample :
    calculate_integral (fun x => x) 0 1 0 (List.range 32) = Except.ok 0 := by
  simp only [calculate_integral]
  rw [if_neg (by norm_num), if_neg (by decide), if_neg (by decide)]
  rw [accumulated_sum_of_step_nonpos (fun x => x) 0 1 _ (by norm_num)]
  norm_num

/-- C8 amended: `calculate_integral` does not validate positivity of
`samples`: with valid bounds, calling it with `samples = 0` returns an `Ok`
numeric result (not an error); the only sample-count check is the upper
ceiling. -/
theorem C8_zero_samples_amended (f : ℚ → ℚ) (lower_bound upper_bound : ℚ)
    (sched : List ℕ) (h1 : lower_bound ≤ upper_bound) :
    ∃ q : ℚ, calculate_integral f lower_bound upper_bound 0 sched = Except.ok q := by
  refine ⟨calculate_accumulated_sum_on_range f lower_bound upper_bound
      ((upper_bound - lower_bound) / ((0 : ℕ) : ℚ)) / ((0 : ℕ) : ℚ), ?_⟩
  simp only [calculate_integral]
  rw [if_neg (not_lt.mpr h1), if_neg (by decide), if_neg (by decide)]

/-- Witness for the amended C8 at `f = id`, bounds `[0, 1]`. -/
theorem C8_zero_samples_amended_witness :
    (0 : ℚ) ≤ 1 ∧
    ∃ q : ℚ, calculate_integral id 0 1 0 (List.range 32) = Except.ok q :=
  ⟨by norm_num, C8_zero_samples_amended id 0 1 (List.range 32) (by norm_num)⟩
